import Mathlib

/-!
Formal model of the multi-provider commit-message generation core of
`pycommit-ai`: the response normalizer (`AIService._sanitize_response` and
`AIService.parse_message` in `src/pycommit_ai/services/base.py`), the OpenAI
adapter's request construction and response handling
(`src/pycommit_ai/services/openai_service.py`) and the parallel dispatcher
(`generate_commits_parallel` in `src/pycommit_ai/core.py`).

Python strings are modelled as Lean `String`s (manipulated through their
character lists); `json.loads` is modelled by an executable fuel-based
recursive-descent parser over the JSON grammar accepted by Python's `json`
module; Python exceptions are modelled with `Except`.  Floating-point
configuration values (`temperature`, `topP`) are modelled as rationals, which
is faithful for everything stated here since the code only passes them along.
-/

namespace PycommitAI

/-- ASCII whitespace as recognized by Python's `str.strip` and the `\s` class
of the `re` module (the non-ASCII Unicode whitespace characters those also
accept are outside the scope of this model). -/
def pyWs (c : Char) : Bool :=
  c = ' ' || c = '\t' || c = '\n' || c = '\r' || c = '\x0b' || c = '\x0c'

/-- Drop leading Python whitespace (model of `str.lstrip()`). -/
def trimLeftL (l : List Char) : List Char := l.dropWhile pyWs

/-- Drop trailing Python whitespace (model of `str.rstrip()`). -/
def trimRightL (l : List Char) : List Char := (l.reverse.dropWhile pyWs).reverse

/-- Model of Python `str.strip()` on character lists. -/
def pyStripL (l : List Char) : List Char := trimRightL (trimLeftL l)

/-- Model of Python `str.strip()`. -/
def pyStrip (s : String) : String := ⟨pyStripL s.data⟩

/-- `re.sub(r"^```json\s*", "", text)`: if the text starts with a ```` ``` ````
fence carrying the literal `json` tag, remove the fence, the tag, and the
whitespace run after them. -/
def subFenceJson (l : List Char) : List Char :=
  if ("```json".data).isPrefixOf l then (l.drop 7).dropWhile pyWs else l

/-- `re.sub(r"^```\s*", "", text)`: if the text starts with a bare ```` ``` ````
fence, remove it and the whitespace run after it. -/
def subFenceOpen (l : List Char) : List Char :=
  if ("```".data).isPrefixOf l then (l.drop 3).dropWhile pyWs else l

/-- `re.sub(r"\s*```$", "", text)`: if the text ends with a ```` ``` ```` fence,
remove it together with the whitespace run before it.  (In `_sanitize_response`
this always runs on text whose last character is not whitespace, so the
end-of-string anchor never fires before a trailing newline.) -/
def subFenceClose (l : List Char) : List Char :=
  if ("```".data.reverse).isPrefixOf l.reverse then
    trimRightL (l.reverse.drop 3).reverse
  else l

/-- Model of `AIService._sanitize_response`: strip, remove a leading
```` ```json ```` or ```` ``` ```` fence, remove a trailing ```` ``` ````
fence, strip again. -/
def sanitizeL (l : List Char) : List Char :=
  pyStripL (subFenceClose (subFenceOpen (subFenceJson (pyStripL l))))

/-- Model of `AIService._sanitize_response` on strings. -/
def sanitize_response (s : String) : String := ⟨sanitizeL s.data⟩

end PycommitAI

namespace PycommitAI

/-- A parsed JSON value as produced by Python's `json.loads`.  Numeric
literals are kept as their lexemes: the normalizer never computes with
numbers, only observes that they are not strings. -/
inductive Json where
  | null
  | bool (b : Bool)
  | num (lexeme : String)
  | str (s : String)
  | arr (elems : List Json)
  | obj (fields : List (String × Json))

/-- JSON inter-token whitespace, as in Python's `json` module (`[ \t\n\r]`). -/
def jsonWs (c : Char) : Bool := c = ' ' || c = '\t' || c = '\n' || c = '\r'

/-- Skip JSON inter-token whitespace. -/
def skipJsonWs (cs : List Char) : List Char := cs.dropWhile jsonWs

/-- Hexadecimal digit test for `\uXXXX` escapes. -/
def isHexDigitC (c : Char) : Bool :=
  c.isDigit || ('a' ≤ c && c ≤ 'f') || ('A' ≤ c && c ≤ 'F')

/-- Value of a hexadecimal digit. -/
def hexValC (c : Char) : Nat :=
  if c.isDigit then c.toNat - '0'.toNat
  else if 'a' ≤ c && c ≤ 'f' then c.toNat - 'a'.toNat + 10
  else c.toNat - 'A'.toNat + 10

/-- Parse the body of a JSON string literal (the opening quote already
consumed), handling the escape sequences accepted by Python's strict JSON
decoder and rejecting raw control characters.  Escapes denoting UTF-16
surrogates are not modelled (Lean `Char` cannot hold them). -/
def parseStringBody (fuel : Nat) (cs : List Char) (acc : List Char) :
    Option (String × List Char) :=
  match fuel with
  | 0 => none
  | fuel + 1 =>
    match cs with
    | [] => none
    | c :: rest =>
      if c = '"' then some (⟨acc.reverse⟩, rest)
      else if c = '\\' then
        match rest with
        | [] => none
        | e :: rest2 =>
          if e = '"' then parseStringBody fuel rest2 ('"' :: acc)
          else if e = '\\' then parseStringBody fuel rest2 ('\\' :: acc)
          else if e = '/' then parseStringBody fuel rest2 ('/' :: acc)
          else if e = 'b' then parseStringBody fuel rest2 ('\x08' :: acc)
          else if e = 'f' then parseStringBody fuel rest2 ('\x0c' :: acc)
          else if e = 'n' then parseStringBody fuel rest2 ('\n' :: acc)
          else if e = 'r' then parseStringBody fuel rest2 ('\r' :: acc)
          else if e = 't' then parseStringBody fuel rest2 ('\t' :: acc)
          else if e = 'u' then
            match rest2 with
            | h1 :: h2 :: h3 :: h4 :: rest3 =>
              if isHexDigitC h1 && isHexDigitC h2 && isHexDigitC h3 && isHexDigitC h4 then
                let n := ((hexValC h1 * 16 + hexValC h2) * 16 + hexValC h3) * 16 + hexValC h4
                if 0xD800 ≤ n ∧ n ≤ 0xDFFF then none
                else parseStringBody fuel rest3 (Char.ofNat n :: acc)
              else none
            | _ => none
          else none
      else if c.toNat < 0x20 then none
      else parseStringBody fuel rest (c :: acc)

/-- Longest digit run at the front of the input. -/
def takeDigitsL (cs : List Char) : List Char × List Char :=
  (cs.takeWhile Char.isDigit, cs.dropWhile Char.isDigit)

/-- The integer part of a JSON number: `0`, or a nonzero digit followed by
digits, per the `json` module's number regular expression. -/
def parseIntPart (cs : List Char) : Option (List Char × List Char) :=
  match cs with
  | [] => none
  | c :: rest =>
    if c = '0' then some ([c], rest)
    else if c.isDigit then
      let (ds, r) := takeDigitsL rest
      some (c :: ds, r)
    else none

/-- Optional fractional part `\.\d+` of a JSON number. -/
def parseFracPart (cs : List Char) : List Char × List Char :=
  match cs with
  | '.' :: rest =>
    match takeDigitsL rest with
    | ([], _) => ([], cs)
    | (ds, r) => ('.' :: ds, r)
  | _ => ([], cs)

/-- Optional exponent part `[eE][-+]?\d+` of a JSON number. -/
def parseExpPart (cs : List Char) : List Char × List Char :=
  match cs with
  | e :: rest =>
    if e = 'e' ∨ e = 'E' then
      match rest with
      | s :: rest2 =>
        if s = '+' ∨ s = '-' then
          match takeDigitsL rest2 with
          | ([], _) => ([], cs)
          | (ds, r) => (e :: s :: ds, r)
        else
          match takeDigitsL rest with
          | ([], _) => ([], cs)
          | (ds, r) => (e :: ds, r)
      | [] => ([], cs)
    else ([], cs)
  | [] => ([], cs)

/-- Parse a JSON numeric literal, keeping its lexeme. -/
def parseNumber (cs : List Char) : Option (Json × List Char) :=
  let (neg, cs1) := match cs with
    | '-' :: rest => (['-'], rest)
    | _ => (([] : List Char), cs)
  match parseIntPart cs1 with
  | none => none
  | some (ip, r1) =>
    let (fp, r2) := parseFracPart r1
    let (ep, r3) := parseExpPart r2
    some (Json.num ⟨neg ++ ip ++ fp ++ ep⟩, r3)

mutual

/-- Fuel-based recursive-descent parser for one JSON value, modelling the
grammar accepted by Python's `json.loads` (including the non-standard
constants `NaN`, `Infinity` and `-Infinity`, kept as numeric lexemes). -/
def parseValue (fuel : Nat) (cs : List Char) : Option (Json × List Char) :=
  match fuel with
  | 0 => none
  | fuel + 1 =>
    match cs with
    | [] => none
    | c :: rest =>
      if c = '"' then
        (parseStringBody (rest.length + 1) rest []).map fun p => (Json.str p.1, p.2)
      else if c = '{' then
        match skipJsonWs rest with
        | '}' :: r2 => some (Json.obj [], r2)
        | r1 => parseMembers fuel r1 []
      else if c = '[' then
        match skipJsonWs rest with
        | ']' :: r2 => some (Json.arr [], r2)
        | r1 => parseElements fuel r1 []
      else if ("true".data).isPrefixOf cs then some (Json.bool true, cs.drop 4)
      else if ("false".data).isPrefixOf cs then some (Json.bool false, cs.drop 5)
      else if ("null".data).isPrefixOf cs then some (Json.null, cs.drop 4)
      else if ("NaN".data).isPrefixOf cs then some (Json.num "NaN", cs.drop 3)
      else if ("Infinity".data).isPrefixOf cs then some (Json.num "Infinity", cs.drop 8)
      else if ("-Infinity".data).isPrefixOf cs then some (Json.num "-Infinity", cs.drop 9)
      else parseNumber cs

/-- Parse the members of a JSON object after the opening brace (at least one
member; the empty object is handled by `parseValue`). -/
def parseMembers (fuel : Nat) (cs : List Char) (acc : List (String × Json)) :
    Option (Json × List Char) :=
  match fuel with
  | 0 => none
  | fuel + 1 =>
    match cs with
    | '"' :: rest =>
      match parseStringBody (rest.length + 1) rest [] with
      | none => none
      | some (key, r1) =>
        match skipJsonWs r1 with
        | ':' :: r2 =>
          match parseValue fuel (skipJsonWs r2) with
          | none => none
          | some (v, r3) =>
            match skipJsonWs r3 with
            | ',' :: r4 => parseMembers fuel (skipJsonWs r4) ((key, v) :: acc)
            | '}' :: r4 => some (Json.obj ((key, v) :: acc).reverse, r4)
            | _ => none
        | _ => none
    | _ => none

/-- Parse the elements of a JSON array after the opening bracket (at least one
element; the empty array is handled by `parseValue`). -/
def parseElements (fuel : Nat) (cs : List Char) (acc : List Json) :
    Option (Json × List Char) :=
  match fuel with
  | 0 => none
  | fuel + 1 =>
    match parseValue fuel cs with
    | none => none
    | some (v, r) =>
      match skipJsonWs r with
      | ',' :: r2 => parseElements fuel (skipJsonWs r2) (v :: acc)
      | ']' :: r2 => some (Json.arr (v :: acc).reverse, r2)
      | _ => none

end

/-- Model of Python's `json.loads`: skip surrounding whitespace, parse one
JSON value, require the input to be fully consumed; `none` models
`json.JSONDecodeError`. -/
def json_loads (s : String) : Option Json :=
  match parseValue (2 * s.data.length + 2) (skipJsonWs s.data) with
  | some (v, r) => if skipJsonWs r = [] then some v else none
  | none => none

/-- The `AIResponse` dataclass of `services/base.py`: a candidate commit
message with its one-line `title` (the subject) and its full rendered
`value`. -/
structure AIResponse where
  title : String
  value : String
deriving DecidableEq, Repr

/-- The faults that can escape `AIService.parse_message` and the
response-content check of `generate_commit_messages`.
`malformedResponse` models `AIServiceError("Failed to parse JSON response:
<text>")` (it carries the sanitized text embedded in that message);
`noValidCandidates` models `AIServiceError("Did not find any valid commit
messages in the response.")`; `typeError` models the Python `AttributeError`
raised by calling `.strip()` on a non-string field value (carrying the field
key at which it was raised); `emptyResponse` models
`AIServiceError("Empty response received from OpenAI API.")`. -/
inductive SvcError where
  | malformedResponse (text : String)
  | noValidCandidates
  | typeError (key : String)
  | emptyResponse
deriving DecidableEq, Repr

/-- The shared configuration fields that `parse_message` and the OpenAI
adapter read (`config.get(...)` with a default when the key is absent):
`none` models an absent key. -/
structure Config where
  generate : Option Nat := none
  maxTokens : Option Nat := none
  temperature : Option Rat := none
  topP : Option Rat := none

/-- The candidate cap used by `parse_message`:
`int(self.config.get("generate", 1))`. -/
def capOf (cfg : Config) : Nat := cfg.generate.getD 1

/-- Python `dict.get` on a parsed JSON object: with duplicate keys,
`json.loads` builds the `dict` left to right, so the last binding wins. -/
def jsonGet (fields : List (String × Json)) (key : String) : Option Json :=
  fields.foldl (fun acc kv => if kv.1 = key then some kv.2 else acc) none

/-- `item.get(key, "").strip()`: an absent key yields `""`; a string value is
stripped; any other value raises `AttributeError` (no `.strip` attribute),
modelled as `SvcError.typeError key`. -/
def getField (fields : List (String × Json)) (key : String) :
    Except SvcError String :=
  match jsonGet fields key with
  | none => .ok ""
  | some (Json.str s) => .ok (pyStrip s)
  | some _ => .error (.typeError key)

/-- The candidate built from stripped subject, body and footer:
`value = subject`, then `+= "\n\n" + body` if body is truthy, then
`+= "\n\n" + footer` if footer is truthy. -/
def buildCandidate (subject body footer : String) : AIResponse :=
  let v1 := if body = "" then subject else subject ++ "\n\n" ++ body
  let v2 := if footer = "" then v1 else v1 ++ "\n\n" ++ footer
  { title := subject, value := v2 }

/-- The per-element step of the `for item in data` loop of `parse_message`:
non-`dict` elements are skipped (`ok none`), as are elements whose stripped
`subject` is empty; otherwise the candidate is built from subject, optional
body and optional footer, each separated by a blank line.  The three field
reads happen in order, and the first raising read aborts the element (and the
loop). -/
def processItem : Json → Except SvcError (Option AIResponse)
  | Json.obj fields =>
    match getField fields "subject" with
    | .error e => .error e
    | .ok subject =>
      match getField fields "body" with
      | .error e => .error e
      | .ok body =>
        match getField fields "footer" with
        | .error e => .error e
        | .ok footer =>
          if subject = "" then .ok none
          else .ok (some (buildCandidate subject body footer))
  | _ => .ok none

/-- The whole `for item in data` loop: elements are processed left to right,
skipped elements contribute nothing, and the first fault aborts the loop. -/
def processItems : List Json → Except SvcError (List AIResponse)
  | [] => .ok []
  | j :: rest =>
    match processItem j with
    | .error e => .error e
    | .ok o =>
      match processItems rest with
      | .error e => .error e
      | .ok rs =>
        match o with
        | some c => .ok (c :: rs)
        | none => .ok rs

/-- `if not isinstance(data, list): data = [data]`: a non-array value is
wrapped in a one-element list. -/
def asList (j : Json) : List Json :=
  match j with
  | Json.arr l => l
  | _ => [j]

/-- The part of `parse_message` that runs on the parsed JSON value: process
the elements, fail with `noValidCandidates` when none survive, otherwise
truncate to the candidate cap. -/
def normalizeJson (j : Json) (cap : Nat) : Except SvcError (List AIResponse) :=
  match processItems (asList j) with
  | .error e => .error e
  | .ok responses =>
    if responses.isEmpty then .error .noValidCandidates
    else .ok (responses.take cap)

/-- Model of `AIService.parse_message`: sanitize the raw text, parse it as
JSON (failing with `malformedResponse` on a `json.JSONDecodeError`), then
normalize the parsed value with cap `int(config.get("generate", 1))`. -/
def parse_message (cfg : Config) (text : String) : Except SvcError (List AIResponse) :=
  let t := sanitize_response text
  match json_loads t with
  | none => .error (.malformedResponse t)
  | some data => normalizeJson data (capOf cfg)

/-- ASCII lowercasing of a model name (Python's `str.lower()`; model names
are ASCII, so the Unicode cases are out of scope). -/
def lowerName (s : String) : String := ⟨s.data.map Char.toLower⟩

/-- Model of `OpenAIService._is_reasoning_model`: the lowercased model name
equals one of the fixed prefixes `o1`, `o3`, `gpt-5`, or continues one of them
with `-` or `.`. -/
def is_reasoning_model (model : String) : Bool :=
  let m := lowerName model
  ["o1", "o3", "gpt-5"].any fun p =>
    m = p || ((p ++ "-").data.isPrefixOf m.data) || ((p ++ ".").data.isPrefixOf m.data)

/-- The keyword arguments of the single `chat.completions.create` call issued
by `OpenAIService.generate_commit_messages` (the two prompt messages are
carried separately and are not modelled here). -/
structure RequestKwargs where
  model : String
  n : Nat
  temperature : Rat
  top_p : Option Rat
  max_tokens : Option Nat
  max_completion_tokens : Option Nat
deriving DecidableEq, Repr

/-- Model of the kwargs construction in
`OpenAIService.generate_commit_messages`: reasoning-class models get a fixed
`temperature` of 1, no `top_p`, and the token budget under
`max_completion_tokens`; all other models get the configuration's
`temperature` (default 0.7), `topP` (default 1.0) and `maxTokens`
(default 1024) under the standard parameter names. -/
def buildKwargs (cfg : Config) (model_name : String) : RequestKwargs :=
  if is_reasoning_model model_name then
    { model := model_name, n := 1, temperature := 1, top_p := none,
      max_tokens := none, max_completion_tokens := some (cfg.maxTokens.getD 1024) }
  else
    { model := model_name, n := 1, temperature := cfg.temperature.getD (7 / 10),
      top_p := some (cfg.topP.getD 1), max_tokens := some (cfg.maxTokens.getD 1024),
      max_completion_tokens := none }

/-- One choice of a chat-completion response: `content` is
`message.content`, with `none` modelling a `None` content. -/
structure ChatChoice where
  content : Option String

/-- A chat-completion response as observed by the adapter: its list of
choices. -/
structure ChatResponse where
  choices : List ChatChoice

/-- Model of the response-handling path of
`OpenAIService.generate_commit_messages`: an empty `choices` list or a
missing/empty first content fails with the "Empty response" error; otherwise
the content is fed to `parse_message`. -/
def generate_commit_messages (cfg : Config) (resp : ChatResponse) :
    Except SvcError (List AIResponse) :=
  match resp.choices with
  | [] => .error .emptyResponse
  | c :: _ =>
    match c.content with
    | none => .error .emptyResponse
    | some s => if s = "" then .error .emptyResponse else parse_message cfg s

/-- The outcome of one adapter's `generate_commit_messages()` call as observed
by the dispatcher: a candidate list, an `AIServiceError` (with the message
`str(e)` yields), or any other unexpected exception. -/
inductive GenOutcome where
  | ok (candidates : List AIResponse)
  | svcError (msg : String)
  | unexpected (msg : String)
deriving DecidableEq

/-- One submitted adapter as the dispatcher sees it: its display label
(the class name without its `Service` suffix, then the model name in
parentheses, built once per future) and
the outcome its `generate_commit_messages()` call is forced to produce. -/
structure AdapterRun where
  label : String
  outcome : GenOutcome
deriving DecidableEq

/-- What the dispatcher yields for one completed future: the payload of a
`"success"` tuple is the candidate list, the payload of an `"error"` tuple is
the message string. -/
inductive DispatchPayload where
  | results (rs : List AIResponse)
  | errorMsg (m : String)
deriving DecidableEq

/-- The per-future body of the `as_completed` loop in
`generate_commits_parallel`: a normal result yields
`("success", label, results)`; an `AIServiceError` yields
`("error", label, str(e))`; any other exception yields
`("error", label, "Unexpected error: " + str(e))`.  Every fault is converted
to a yielded tuple — nothing propagates out of the loop body. -/
def dispatchOne (a : AdapterRun) : String × String × DispatchPayload :=
  match a.outcome with
  | .ok rs => ("success", a.label, .results rs)
  | .svcError m => ("error", a.label, .errorMsg m)
  | .unexpected m => ("error", a.label, .errorMsg ("Unexpected error: " ++ m))

/-- Model of `generate_commits_parallel`: `as_completed` hands back every
submitted future exactly once, in an arbitrary completion order, and the loop
yields one tuple per future.  The function is parametrized by the completion
order; a run over adapters `l` corresponds to any `completed` with
`completed.Perm l`. -/
def generate_commits_parallel (completed : List AdapterRun) :
    List (String × String × DispatchPayload) :=
  completed.map dispatchOne

/-- Whether an adapter run's forced outcome is a fault. -/
def failsRun (a : AdapterRun) : Bool :=
  match a.outcome with
  | .ok _ => false
  | _ => true

/-! ### Whitespace-stripping lemmas -/

/-- A character list either is empty or starts with a non-whitespace
character. -/
def noWsHead (l : List Char) : Bool :=
  match l with
  | [] => true
  | a :: _ => !pyWs a

theorem dropWhile_eq_self_of_noWsHead {l : List Char} (h : noWsHead l = true) :
    l.dropWhile pyWs = l := by
  cases l with
  | nil => rfl
  | cons a t => simp [noWsHead] at h; simp [List.dropWhile_cons, h]

theorem noWsHead_dropWhile (l : List Char) : noWsHead (l.dropWhile pyWs) = true := by
  induction l with
  | nil => rfl
  | cons a t ih =>
    by_cases h : pyWs a = true
    · simpa [List.dropWhile_cons, h] using ih
    · simp only [Bool.not_eq_true] at h
      simp [List.dropWhile_cons, h, noWsHead]

theorem dropWhile_append_all {w l : List Char} (h : ∀ c ∈ w, pyWs c = true) :
    (w ++ l).dropWhile pyWs = l.dropWhile pyWs := by
  induction w with
  | nil => rfl
  | cons a t ih =>
    have ha : pyWs a = true := h a (by simp)
    simp only [List.cons_append, List.dropWhile_cons, ha, if_pos]
    exact ih fun c hc => h c (by simp [hc])

theorem exists_dropWhile_pre (l : List Char) :
    ∃ pre, l = pre ++ l.dropWhile pyWs ∧ ∀ c ∈ pre, pyWs c = true := by
  induction l with
  | nil => exact ⟨[], rfl, by simp⟩
  | cons a t ih =>
    by_cases h : pyWs a = true
    · obtain ⟨pre, hpre, hall⟩ := ih
      exact ⟨a :: pre, by simpa [List.dropWhile_cons, h] using congrArg (a :: ·) hpre,
        by intro c hc; rcases List.mem_cons.mp hc with rfl | hc2; exact h; exact hall c hc2⟩
    · simp only [Bool.not_eq_true] at h
      exact ⟨[], by simp [List.dropWhile_cons, h], by simp⟩

theorem length_dropWhile_le (l : List Char) : (l.dropWhile pyWs).length ≤ l.length :=
  (List.dropWhile_suffix pyWs).sublist.length_le

theorem dropWhile_eq_self_of_length {l : List Char}
    (h : (l.dropWhile pyWs).length = l.length) : l.dropWhile pyWs = l :=
  (List.dropWhile_suffix pyWs).eq_of_length h

theorem noWsHead_of_dropWhile_eq_self {l : List Char} (h : l.dropWhile pyWs = l) :
    noWsHead l = true := by
  cases l with
  | nil => rfl
  | cons a t =>
    by_cases ha : pyWs a = true
    · exfalso
      rw [List.dropWhile_cons, if_pos ha] at h
      have h1 := congrArg List.length h
      have h2 := length_dropWhile_le t
      simp only [List.length_cons] at h1
      omega
    · simp only [Bool.not_eq_true] at ha
      simp [noWsHead, ha]

theorem trimRightL_reverse_eq (l : List Char) :
    (trimRightL l).reverse = l.reverse.dropWhile pyWs := by
  simp [trimRightL]

theorem trimRightL_eq_self_of_noWsHead_reverse {l : List Char}
    (h : noWsHead l.reverse = true) : trimRightL l = l := by
  unfold trimRightL
  rw [dropWhile_eq_self_of_noWsHead h, List.reverse_reverse]

theorem isPrefix_noWsHead {l p : List Char} (hp : p <+: l) (h : noWsHead l = true) :
    noWsHead p = true := by
  cases p with
  | nil => rfl
  | cons a t =>
    cases l with
    | nil => exact absurd (List.eq_nil_of_prefix_nil hp) (by simp)
    | cons b u =>
      obtain ⟨rfl, -⟩ := (List.cons_prefix_cons).mp hp
      exact h

theorem trimRightL_isPrefix (l : List Char) : trimRightL l <+: l := by
  obtain ⟨pre, hpre, -⟩ := exists_dropWhile_pre l.reverse
  refine ⟨pre.reverse, ?_⟩
  conv_rhs => rw [← List.reverse_reverse l, hpre]
  simp [trimRightL]

theorem stripped_pyStripL (l : List Char) : pyStripL (pyStripL l) = pyStripL l := by
  unfold pyStripL
  set y := trimLeftL l with hy
  have hyh : noWsHead y = true := noWsHead_dropWhile l
  have h1 : noWsHead (trimRightL y) = true := isPrefix_noWsHead (trimRightL_isPrefix y) hyh
  rw [show trimLeftL (trimRightL y) = trimRightL y from dropWhile_eq_self_of_noWsHead h1]
  apply trimRightL_eq_self_of_noWsHead_reverse
  rw [trimRightL_reverse_eq]
  exact noWsHead_dropWhile _

theorem stripped_parts {l : List Char} (h : pyStripL l = l) :
    noWsHead l = true ∧ noWsHead l.reverse = true := by
  have hlen1 : (trimRightL (trimLeftL l)).length ≤ (trimLeftL l).length := by
    have := length_dropWhile_le (trimLeftL l).reverse
    simpa [trimRightL] using this
  have hlen2 : (trimLeftL l).length ≤ l.length := length_dropWhile_le l
  have hfix : (pyStripL l).length = l.length := by rw [h]
  have hL : trimLeftL l = l := by
    apply dropWhile_eq_self_of_length
    have h3 : (trimRightL (trimLeftL l)).length = l.length := by
      unfold pyStripL at hfix
      exact hfix
    show (trimLeftL l).length = l.length
    omega
  have hR : trimRightL l = l := by
    have : pyStripL l = trimRightL l := by unfold pyStripL; rw [hL]
    rw [← this, h]
  refine ⟨noWsHead_of_dropWhile_eq_self hL, noWsHead_of_dropWhile_eq_self ?_⟩
  have := congrArg List.reverse hR
  rw [trimRightL_reverse_eq] at this
  exact this

theorem pyStripL_eq_self_of {l : List Char} (h1 : noWsHead l = true)
    (h2 : noWsHead l.reverse = true) : pyStripL l = l := by
  unfold pyStripL trimLeftL
  rw [dropWhile_eq_self_of_noWsHead h1]
  exact trimRightL_eq_self_of_noWsHead_reverse h2

/-- Python `str.strip` is idempotent. -/
theorem pyStrip_idem (s : String) : pyStrip (pyStrip s) = pyStrip s := by
  simp [pyStrip, stripped_pyStripL]

theorem noWsHead_append_left {a b : List Char} (ha : a ≠ []) (h : noWsHead a = true) :
    noWsHead (a ++ b) = true := by
  cases a with
  | nil => exact absurd rfl ha
  | cons x t => simpa [noWsHead] using h

/-- Concatenating two stripped nonempty strings with a blank line in between
yields a stripped string. -/
theorem pyStrip_append_stripped {b f : String} (hb : pyStrip b = b) (hbne : b ≠ "")
    (hf : pyStrip f = f) (hfne : f ≠ "") :
    pyStrip (b ++ "\n\n" ++ f) = b ++ "\n\n" ++ f := by
  have hbd : pyStripL b.data = b.data := congrArg String.data hb
  have hfd : pyStripL f.data = f.data := congrArg String.data hf
  have hbne2 : b.data ≠ [] := fun hn => hbne (String.ext hn)
  have hfne2 : f.data ≠ [] := fun hn => hfne (String.ext hn)
  obtain ⟨hbh, hbr⟩ := stripped_parts hbd
  obtain ⟨hfh, hfr⟩ := stripped_parts hfd
  apply String.ext
  show pyStripL (b ++ "\n\n" ++ f).data = (b ++ "\n\n" ++ f).data
  have hdata : (b ++ "\n\n" ++ f).data = b.data ++ ('\n' :: '\n' :: f.data) := by
    simp [String.data_append]
  rw [hdata]
  apply pyStripL_eq_self_of
  · exact noWsHead_append_left hbne2 hbh
  · rw [List.reverse_append]
    apply noWsHead_append_left (by simp)
    show noWsHead ('\n' :: '\n' :: f.data).reverse = true
    have : ('\n' :: '\n' :: f.data).reverse = f.data.reverse ++ ['\n', '\n'] := by simp
    rw [this]
    exact noWsHead_append_left (by simpa using hfne2) hfr

/-! ### Normalizer lemmas -/

/-- Whether an element that the normalizer's loop inspects carries only
string values (when present) at the three keys `parse_message` reads.  This
is exactly the condition under which no `.strip()` call in the loop can raise
an `AttributeError` for that element. -/
def okKey (fields : List (String × Json)) (key : String) : Bool :=
  match jsonGet fields key with
  | none => true
  | some (Json.str _) => true
  | some _ => false

/-- All three keys read by the loop are absent or string-valued. -/
def fieldsWellTyped (j : Json) : Bool :=
  match j with
  | Json.obj fields => okKey fields "subject" && okKey fields "body" && okKey fields "footer"
  | _ => true

/-- An element that the spec says the loop excludes: a non-object, or an
object whose `subject` is absent or blank after stripping (a non-string
`subject` is not "blank", it is a crash, so it does not count as excluded). -/
def excludedElem (j : Json) : Bool :=
  match j with
  | Json.obj fields =>
    match jsonGet fields "subject" with
    | none => true
    | some (Json.str s) => pyStrip s = ""
    | some _ => false
  | _ => true

theorem getField_stripped {fields : List (String × Json)} {key s : String}
    (h : getField fields key = .ok s) : pyStrip s = s := by
  rcases hg : jsonGet fields key with - | v
  · simp only [getField, hg] at h
    cases h
    rfl
  · cases v <;> simp only [getField, hg] at h <;> cases h
    exact pyStrip_idem _

theorem getField_ok_of_okKey {fields : List (String × Json)} {key : String}
    (h : okKey fields key = true) : ∃ s, getField fields key = .ok s := by
  rcases hg : jsonGet fields key with - | v
  · exact ⟨"", by simp only [getField, hg]⟩
  · cases v <;> simp only [okKey, hg] at h <;> try cases h
    next s0 => exact ⟨pyStrip s0, by simp only [getField, hg]⟩

/-- The structural invariant of every candidate the loop produces: a stripped
nonempty title, and a value that is the title alone or the title followed by
a blank line and a stripped nonempty remainder. -/
def CandShape (c : AIResponse) : Prop :=
  pyStrip c.title = c.title ∧ c.title ≠ "" ∧
    (c.value = c.title ∨
      ∃ rest : String, pyStrip rest = rest ∧ rest ≠ "" ∧
        c.value = c.title ++ "\n\n" ++ rest)

theorem buildCandidate_shape {subject body footer : String}
    (hs : pyStrip subject = subject) (hsub : subject ≠ "")
    (hb : pyStrip body = body) (hf : pyStrip footer = footer) :
    CandShape (buildCandidate subject body footer) := by
  refine ⟨hs, hsub, ?_⟩
  by_cases hbe : body = ""
  · by_cases hfe : footer = ""
    · left; simp [buildCandidate, hbe, hfe]
    · right
      exact ⟨footer, hf, hfe, by simp [buildCandidate, hbe, hfe]⟩
  · by_cases hfe : footer = ""
    · right
      exact ⟨body, hb, hbe, by simp [buildCandidate, hbe, hfe]⟩
    · right
      refine ⟨body ++ "\n\n" ++ footer, pyStrip_append_stripped hb hbe hf hfe, ?_, ?_⟩
      · intro hx
        have hlx := congrArg String.length hx
        simp [String.length_append] at hlx
        have hbl : 0 < body.length := by
          cases hb2 : body.length with
          | zero => exact absurd (String.ext (List.length_eq_zero.mp hb2)) hbe
          | succ n => omega
        omega
      · simp [buildCandidate, hbe, hfe, String.append_assoc]

theorem processItem_some_shape {j : Json} {c : AIResponse}
    (h : processItem j = .ok (some c)) : CandShape c := by
  cases j
  case obj fields =>
    rcases hs : getField fields "subject" with e | subject
    · simp [processItem, hs] at h
    rcases hb : getField fields "body" with e | body
    · simp [processItem, hs, hb] at h
    rcases hf : getField fields "footer" with e | footer
    · simp [processItem, hs, hb, hf] at h
    by_cases hsub : subject = ""
    · simp [processItem, hs, hb, hf, hsub] at h
    · simp only [processItem, hs, hb, hf, if_neg hsub] at h
      cases h
      exact buildCandidate_shape (getField_stripped hs) hsub
        (getField_stripped hb) (getField_stripped hf)
  all_goals simp [processItem] at h

theorem processItem_wellTyped {j : Json} (h : fieldsWellTyped j = true) :
    ∃ o, processItem j = .ok o := by
  cases j <;> try exact ⟨none, rfl⟩
  case obj fields =>
    simp only [fieldsWellTyped, Bool.and_eq_true] at h
    obtain ⟨⟨h1, h2⟩, h3⟩ := h
    obtain ⟨s, hs⟩ := getField_ok_of_okKey h1
    obtain ⟨b, hb⟩ := getField_ok_of_okKey h2
    obtain ⟨f, hf⟩ := getField_ok_of_okKey h3
    simp only [processItem, hs, hb, hf]
    by_cases hsub : s = ""
    · exact ⟨none, by rw [if_pos hsub]⟩
    · exact ⟨_, by rw [if_neg hsub]⟩

theorem processItems_wellTyped {items : List Json}
    (h : ∀ e ∈ items, fieldsWellTyped e = true) :
    ∃ svs, processItems items = .ok svs := by
  induction items with
  | nil => exact ⟨[], rfl⟩
  | cons j rest ih =>
    obtain ⟨o, ho⟩ := processItem_wellTyped (h j (by simp))
    obtain ⟨svs, hsvs⟩ := ih fun e he => h e (by simp [he])
    simp only [processItems, ho, hsvs]
    match o with
    | some c => exact ⟨c :: svs, rfl⟩
    | none => exact ⟨svs, rfl⟩

theorem processItems_shapes {items : List Json} {svs : List AIResponse}
    (h : processItems items = .ok svs) : ∀ c ∈ svs, CandShape c := by
  induction items generalizing svs with
  | nil =>
    simp only [processItems] at h
    cases h
    simp
  | cons j rest ih =>
    rcases ho : processItem j with e | o
    · simp [processItems, ho] at h
    rcases hrest : processItems rest with e | rsvs
    · simp [processItems, ho, hrest] at h
    simp only [processItems, ho, hrest] at h
    match o with
    | some c =>
      cases h
      intro d hd
      rcases List.mem_cons.mp hd with rfl | hd2
      · exact processItem_some_shape ho
      · exact ih hrest d hd2
    | none =>
      cases h
      exact ih hrest

theorem normalizeJson_ok {j : Json} {cap : Nat} {l : List AIResponse}
    (h : normalizeJson j cap = .ok l) :
    ∃ svs, processItems (asList j) = .ok svs ∧ svs ≠ [] ∧ l = svs.take cap := by
  rcases hp : processItems (asList j) with e | svs
  · simp [normalizeJson, hp] at h
  by_cases he : svs.isEmpty
  · simp [normalizeJson, hp, he] at h
  · simp only [normalizeJson, hp, if_neg he] at h
    cases h
    exact ⟨svs, rfl, by simpa using he, rfl⟩

theorem take_ne_nil_of_pos {l : List AIResponse} {n : Nat} (hl : l ≠ [])
    (hn : 0 < n) : l.take n ≠ [] := by
  cases l with
  | nil => exact absurd rfl hl
  | cons a t =>
    cases n with
    | zero => omega
    | succ m => simp

/-! ### Fence-stripping lemmas -/

theorem isPrefixOf_append_self (x y : List Char) : (x.isPrefixOf (x ++ y)) = true := by
  rw [List.isPrefixOf_iff_prefix]
  exact List.prefix_append x y

theorem isPrefixOf_cons_false {a b : Char} {p l : List Char} (hne : b ≠ a) :
    ((b :: p).isPrefixOf (a :: l)) = false := by
  rw [Bool.eq_false_iff]
  intro htrue
  exact hne (List.cons_prefix_cons.mp (List.isPrefixOf_iff_prefix.mp htrue)).1

theorem isPrefixOf_append_cancel (l x y : List Char) :
    ((l ++ x).isPrefixOf (l ++ y)) = (x.isPrefixOf y) := by
  rw [Bool.eq_iff_iff, List.isPrefixOf_iff_prefix, List.isPrefixOf_iff_prefix]
  exact List.prefix_append_right_inj l

theorem subFenceJson_of_json (rest : List Char) :
    subFenceJson ("```json".data ++ rest) = rest.dropWhile pyWs := by
  unfold subFenceJson
  rw [if_pos (isPrefixOf_append_self _ _)]
  rw [List.drop_left' (show ("```json".data).length = 7 from rfl)]

theorem subFenceJson_not {l : List Char} (h : (("```json".data).isPrefixOf l) = false) :
    subFenceJson l = l := by
  unfold subFenceJson
  rw [h]
  rfl

theorem subFenceOpen_of (rest : List Char) :
    subFenceOpen ("```".data ++ rest) = rest.dropWhile pyWs := by
  unfold subFenceOpen
  rw [if_pos (isPrefixOf_append_self _ _)]
  rw [List.drop_left' (show ("```".data).length = 3 from rfl)]

theorem subFenceOpen_not {l : List Char} (h : (("```".data).isPrefixOf l) = false) :
    subFenceOpen l = l := by
  unfold subFenceOpen
  rw [h]
  rfl

theorem subFenceClose_end (front : List Char) :
    subFenceClose (front ++ "```".data) = trimRightL front := by
  unfold subFenceClose
  rw [List.reverse_append]
  rw [if_pos (isPrefixOf_append_self _ _)]
  show trimRightL front.reverse.reverse = trimRightL front
  rw [List.reverse_reverse]

theorem subFenceClose_not {l : List Char}
    (h : (("```".data.reverse).isPrefixOf l.reverse) = false) :
    subFenceClose l = l := by
  unfold subFenceClose
  rw [h]
  rfl

theorem pyStripL_padded {W1 W4 mid : List Char} (h1 : ∀ c ∈ W1, pyWs c = true)
    (h4 : ∀ c ∈ W4, pyWs c = true) (hm : mid ≠ []) (hh : noWsHead mid = true)
    (hr : noWsHead mid.reverse = true) : pyStripL (W1 ++ (mid ++ W4)) = mid := by
  unfold pyStripL trimLeftL
  rw [dropWhile_append_all h1, dropWhile_eq_self_of_noWsHead (noWsHead_append_left hm hh)]
  unfold trimRightL
  rw [List.reverse_append,
    dropWhile_append_all fun c hc => h4 c (List.mem_reverse.mp hc),
    dropWhile_eq_self_of_noWsHead hr, List.reverse_reverse]

theorem trimRightL_append_ws {P W : List Char} (hw : ∀ c ∈ W, pyWs c = true)
    (hr : noWsHead P.reverse = true) : trimRightL (P ++ W) = P := by
  unfold trimRightL
  rw [List.reverse_append,
    dropWhile_append_all fun c hc => hw c (List.mem_reverse.mp hc),
    dropWhile_eq_self_of_noWsHead hr, List.reverse_reverse]

/-- Sanitizing a fenced payload (language tag `json` or absent, arbitrary
whitespace around the fences) yields exactly the trimmed payload, provided
the payload is itself trimmed, nonempty, does not begin with a backtick or
`j`, and ends away from a backtick.  Every syntactically valid JSON value
satisfies the three character conditions. -/
theorem sanitizeL_fenced (tagD W1 W2 W3 W4 Pd : List Char)
    (htag : tagD = "json".data ∨ tagD = [])
    (h1 : ∀ c ∈ W1, pyWs c = true) (h2 : ∀ c ∈ W2, pyWs c = true)
    (h3 : ∀ c ∈ W3, pyWs c = true) (h4 : ∀ c ∈ W4, pyWs c = true)
    (hP : pyStripL Pd = Pd) (hne : Pd ≠ [])
    (hh : ∀ c, Pd.head? = some c → c ≠ '`' ∧ c ≠ 'j') :
    sanitizeL (W1 ++ ("```".data ++ tagD ++ W2 ++ Pd ++ W3 ++ "```".data) ++ W4) = Pd := by
  obtain ⟨p0, Pd', rfl⟩ : ∃ a t, Pd = a :: t := by
    cases Pd with
    | nil => exact absurd rfl hne
    | cons a t => exact ⟨a, t, rfl⟩
  obtain ⟨hp0bt, hp0j⟩ := hh p0 rfl
  obtain ⟨hPh, hPr⟩ := stripped_parts hP
  have hp0 : pyWs p0 = false := by
    simpa [noWsHead] using hPh
  have hmidh : noWsHead ("```".data ++ (tagD ++ (W2 ++ ((p0 :: Pd') ++ (W3 ++ "```".data))))) = true := rfl
  have hmidr :
      noWsHead ("```".data ++ (tagD ++ (W2 ++ ((p0 :: Pd') ++ (W3 ++ "```".data))))).reverse = true := by
    rw [show "```".data ++ (tagD ++ (W2 ++ ((p0 :: Pd') ++ (W3 ++ "```".data)))) =
      ("```".data ++ (tagD ++ (W2 ++ ((p0 :: Pd') ++ W3)))) ++ "```".data by
        simp [List.append_assoc]]
    rw [List.reverse_append]
    rfl
  have hPX : ∀ X : List Char, ((p0 :: Pd') ++ X).dropWhile pyWs = (p0 :: Pd') ++ X := by
    intro X
    apply dropWhile_eq_self_of_noWsHead
    show (!pyWs p0) = true
    rw [hp0]
    rfl
  have s2 : subFenceOpen (subFenceJson
      ("```".data ++ (tagD ++ (W2 ++ ((p0 :: Pd') ++ (W3 ++ "```".data)))))) =
      (p0 :: Pd') ++ (W3 ++ "```".data) := by
    rcases htag with rfl | rfl
    · rw [show "```".data ++ ("json".data ++ (W2 ++ ((p0 :: Pd') ++ (W3 ++ "```".data)))) =
        "```json".data ++ (W2 ++ ((p0 :: Pd') ++ (W3 ++ "```".data))) by
          simp [List.append_assoc]]
      rw [subFenceJson_of_json, dropWhile_append_all h2, hPX]
      exact subFenceOpen_not (isPrefixOf_cons_false (Ne.symm hp0bt))
    · rw [List.nil_append]
      rw [subFenceJson_not ?hnj]
      case hnj =>
        rw [show ("```json".data : List Char) = "```".data ++ "json".data from rfl,
          isPrefixOf_append_cancel]
        cases W2 with
        | nil =>
          rw [List.nil_append]
          exact isPrefixOf_cons_false (Ne.symm hp0j)
        | cons w W2' =>
          have hw : pyWs w = true := h2 w (by simp)
          have hwj : w ≠ 'j' := by
            intro he
            rw [he] at hw
            exact absurd hw (by decide)
          exact isPrefixOf_cons_false (Ne.symm hwj)
      rw [subFenceOpen_of, dropWhile_append_all h2, hPX]
  have s3 : subFenceClose ((p0 :: Pd') ++ (W3 ++ "```".data)) = p0 :: Pd' := by
    rw [show (p0 :: Pd') ++ (W3 ++ "```".data) = ((p0 :: Pd') ++ W3) ++ "```".data by
      simp [List.append_assoc]]
    rw [subFenceClose_end]
    exact trimRightL_append_ws h3 hPr
  show pyStripL (subFenceClose (subFenceOpen (subFenceJson (pyStripL _)))) = _
  rw [show W1 ++ ("```".data ++ tagD ++ W2 ++ (p0 :: Pd') ++ W3 ++ "```".data) ++ W4 =
    W1 ++ (("```".data ++ (tagD ++ (W2 ++ ((p0 :: Pd') ++ (W3 ++ "```".data))))) ++ W4) by
      simp [List.append_assoc]]
  rw [pyStripL_padded h1 h4 (by simp) hmidh hmidr, s2, s3, hP]

/-- Sanitizing a bare payload that is already trimmed and carries no fence
markers at either end leaves it unchanged. -/
theorem sanitizeL_plain (Pd : List Char) (hP : pyStripL Pd = Pd) (hne : Pd ≠ [])
    (hh : ∀ c, Pd.head? = some c → c ≠ '`' ∧ c ≠ 'j')
    (hl : ∀ c, Pd.getLast? = some c → c ≠ '`') : sanitizeL Pd = Pd := by
  obtain ⟨p0, Pd', rfl⟩ : ∃ a t, Pd = a :: t := by
    cases Pd with
    | nil => exact absurd rfl hne
    | cons a t => exact ⟨a, t, rfl⟩
  obtain ⟨hp0bt, -⟩ := hh p0 rfl
  have s2 : subFenceJson (p0 :: Pd') = p0 :: Pd' :=
    subFenceJson_not (isPrefixOf_cons_false (Ne.symm hp0bt))
  have s3 : subFenceOpen (p0 :: Pd') = p0 :: Pd' :=
    subFenceOpen_not (isPrefixOf_cons_false (Ne.symm hp0bt))
  have s4 : subFenceClose (p0 :: Pd') = p0 :: Pd' := by
    obtain ⟨q0, Q, hq⟩ : ∃ a t, (p0 :: Pd').reverse = a :: t := by
      cases hrev : (p0 :: Pd').reverse with
      | nil =>
        have hlen := congrArg List.length hrev
        simp at hlen
      | cons a t => exact ⟨a, t, rfl⟩
    have hq0 : q0 ≠ '`' := by
      apply hl
      rw [← List.head?_reverse, hq]
      rfl
    apply subFenceClose_not
    rw [hq]
    exact isPrefixOf_cons_false (Ne.symm hq0)
  show pyStripL (subFenceClose (subFenceOpen (subFenceJson (pyStripL _)))) = _
  rw [hP, s2, s3, s4, hP]

/-! ### Re-wrapping accepted output (for the idempotence property) -/

/-- Drop the first `n` characters of a string. -/
def strDropL (s : String) (n : Nat) : String := ⟨s.data.drop n⟩

theorem length_pos_of_ne_empty {s : String} (h : s ≠ "") : 0 < s.length := by
  cases hl : s.length with
  | zero => exact absurd (String.ext (List.length_eq_zero.mp hl)) h
  | succ n => omega

/-- The body part of an accepted candidate: what follows the subject and the
blank line in its rendered value, when anything does. -/
def bodyRest (c : AIResponse) : Option String :=
  if c.value = c.title then none
  else some (strDropL c.value (c.title.length + 2))

/-- One accepted candidate wrapped back into the JSON shape the normalizer
accepted it from: an object carrying its `subject`, with `body` where
present. -/
def rewrapElem (c : AIResponse) : Json :=
  Json.obj (("subject", Json.str c.title) ::
    (match bodyRest c with
     | none => []
     | some b => [("body", Json.str b)]))

/-- A whole accepted candidate list wrapped back into a JSON array. -/
def rewrap (cs : List AIResponse) : Json := Json.arr (cs.map rewrapElem)

theorem value_ne_title {c : AIResponse} {rest : String}
    (hveq : c.value = c.title ++ "\n\n" ++ rest) (hrne : rest ≠ "") :
    c.value ≠ c.title := by
  rw [hveq]
  intro hx
  have hlx := congrArg String.length hx
  have hr := length_pos_of_ne_empty hrne
  simp [String.length_append, show ("\n\n" : String).length = 2 from rfl] at hlx
  omega

theorem bodyRest_eq {c : AIResponse} {rest : String}
    (hveq : c.value = c.title ++ "\n\n" ++ rest) (hrne : rest ≠ "") :
    bodyRest c = some rest := by
  simp only [bodyRest, if_neg (value_ne_title hveq hrne)]
  congr 1
  apply String.ext
  show c.value.data.drop (c.title.length + 2) = rest.data
  have hdata : c.value.data = (c.title ++ "\n\n").data ++ rest.data := by
    rw [hveq, String.append_assoc]
    rw [← String.append_assoc]
    exact String.data_append _ _
  rw [hdata]
  have hlen : (c.title ++ "\n\n").data.length = c.title.length + 2 := by
    show (c.title ++ "\n\n").length = c.title.length + 2
    simp [String.length_append, show ("\n\n" : String).length = 2 from rfl]
  rw [← hlen]
  exact List.drop_left _ _

theorem processItem_rewrapElem {c : AIResponse} (h : CandShape c) :
    processItem (rewrapElem c) = .ok (some c) := by
  obtain ⟨hstr, hne, hval⟩ := h
  rcases hval with hv | ⟨rest, hrs, hrne, hveq⟩
  · have hbr : bodyRest c = none := by simp [bodyRest, hv]
    have h1 : jsonGet [("subject", Json.str c.title)] "subject" =
        some (Json.str c.title) := by simp [jsonGet]
    have h2 : jsonGet [("subject", Json.str c.title)] "body" = none := by
      simp [jsonGet]
    have h3 : jsonGet [("subject", Json.str c.title)] "footer" = none := by
      simp [jsonGet]
    simp only [rewrapElem, hbr, processItem, getField, h1, h2, h3, hstr,
      if_neg hne]
    obtain ⟨t, v⟩ := c
    simp only at hv
    simp [buildCandidate, hv]
  · have hbr : bodyRest c = some rest := bodyRest_eq hveq hrne
    have h1 : jsonGet [("subject", Json.str c.title), ("body", Json.str rest)]
        "subject" = some (Json.str c.title) := by simp [jsonGet]
    have h2 : jsonGet [("subject", Json.str c.title), ("body", Json.str rest)]
        "body" = some (Json.str rest) := by simp [jsonGet]
    have h3 : jsonGet [("subject", Json.str c.title), ("body", Json.str rest)]
        "footer" = none := by simp [jsonGet]
    simp only [rewrapElem, hbr, processItem, getField, h1, h2, h3, hstr, hrs,
      if_neg hne]
    obtain ⟨t, v⟩ := c
    simp only at hveq
    simp [buildCandidate, hveq, if_neg hrne]

theorem processItems_rewrap {cs : List AIResponse} (h : ∀ c ∈ cs, CandShape c) :
    processItems (cs.map rewrapElem) = .ok cs := by
  induction cs with
  | nil => rfl
  | cons c rest ih =>
    have hc := processItem_rewrapElem (h c (by simp))
    have hr := ih fun d hd => h d (by simp [hd])
    simp only [List.map_cons, processItems, hc, hr]

theorem parse_message_def (cfg : Config) (raw : String) :
    parse_message cfg raw =
      match json_loads (sanitize_response raw) with
      | none => .error (.malformedResponse (sanitize_response raw))
      | some data => normalizeJson data (capOf cfg) := rfl

theorem parse_message_ok_ne_nil {cfg : Config} {raw : String} {l : List AIResponse}
    (hcap : 0 < capOf cfg) (h : parse_message cfg raw = .ok l) : l ≠ [] := by
  rw [parse_message_def] at h
  rcases hj : json_loads (sanitize_response raw) with - | j <;> rw [hj] at h
  · cases h
  · obtain ⟨svs, -, hne, rfl⟩ := normalizeJson_ok h
    exact take_ne_nil_of_pos hne hcap

/-! ### Concrete fixtures used by witnesses and counterexamples -/

/-- A shared configuration requesting one candidate. -/
def cfgGen1 : Config := { generate := some 1 }

/-- A shared configuration requesting two candidates. -/
def cfgGen2 : Config := { generate := some 2 }

/-- A shared configuration with no `generate` entry. -/
def cfgNone : Config := {}

/-- A fully-populated configuration for the request-parameter claims. -/
def cfgFull : Config :=
  { generate := some 1, maxTokens := some 512,
    temperature := some (1 / 2), topP := some (9 / 10) }

/-- An adapter run that succeeds with one candidate. -/
def runA : AdapterRun :=
  { label := "OpenAI (gpt-4o-mini)",
    outcome := .ok [{ title := "feat: x", value := "feat: x" }] }

/-- An adapter run that fails with an `AIServiceError`. -/
def runB : AdapterRun :=
  { label := "Gemini (gemini-2.5-flash)",
    outcome := .svcError "OpenAI API Error: boom" }

/-- A chat response with a single valid JSON content. -/
def respW : ChatResponse := ⟨[⟨some "[\x7b\"subject\": \"fix: y\"\x7d]"⟩]⟩

/-! ### Claim theorems -/

/-- C1: for every finite adapter list and every completion order (any
permutation of the submitted adapters), the dispatcher yields exactly one
result per adapter — the yielded tuples are a permutation of the per-adapter
outcomes, so none is dropped or duplicated; every fault (whether an
`AIServiceError` or an unexpected exception) appears as an `"error"` tuple
carrying that adapter's label rather than propagating, so with K failing
adapters exactly K `"error"` and N−K `"success"` tuples are yielded, and a
failing adapter never prevents another adapter's success tuple from being
yielded. -/
theorem claim_C1_dispatch_completeness (adapters completed : List AdapterRun)
    (hperm : completed.Perm adapters) :
    (generate_commits_parallel completed).length = adapters.length ∧
    (generate_commits_parallel completed).Perm (adapters.map dispatchOne) ∧
    (generate_commits_parallel completed).countP (fun y => y.1 == "error") =
      adapters.countP failsRun ∧
    (generate_commits_parallel completed).countP (fun y => y.1 == "success") =
      adapters.length - adapters.countP failsRun ∧
    (∀ a ∈ adapters, dispatchOne a ∈ generate_commits_parallel completed) := by
  have hm : generate_commits_parallel completed = completed.map dispatchOne := rfl
  have hperm2 : (completed.map dispatchOne).Perm (adapters.map dispatchOne) :=
    hperm.map _
  have herr : ∀ a : AdapterRun, ((dispatchOne a).1 == "error") = failsRun a := by
    intro a
    rcases a with ⟨lab, o⟩
    cases o <;> rfl
  have hsucc : ∀ a : AdapterRun, ((dispatchOne a).1 == "success") = !failsRun a := by
    intro a
    rcases a with ⟨lab, o⟩
    cases o <;> rfl
  refine ⟨?_, hperm2, ?_, ?_, ?_⟩
  · rw [hm, List.length_map, hperm.length_eq]
  · rw [hm, List.countP_map, hperm.countP_eq]
    exact List.countP_congr fun a _ => by rw [Function.comp_apply, herr a]
  · rw [hm, List.countP_map, hperm.countP_eq]
    have hsplit := List.length_eq_countP_add_countP (l := adapters) failsRun
    have hc : adapters.countP (fun a => (dispatchOne a).1 == "success") =
        adapters.countP fun a => decide ¬(failsRun a = true) := by
      apply List.countP_congr
      intro a _
      rw [hsucc a]
      cases hfa : failsRun a <;> simp
    rw [show (fun y : String × String × DispatchPayload => y.1 == "success") ∘
      dispatchOne = fun a => (dispatchOne a).1 == "success" from rfl]
    rw [hc]
    omega
  · intro a ha
    rw [hm]
    exact hperm2.mem_iff.mpr (List.mem_map_of_mem _ ha)

/-- Witness for C1: a two-adapter dispatch (one success, one failure)
completing in reversed order yields two results, one error and one
success. -/
theorem claim_C1_witness :
    (generate_commits_parallel [runB, runA]).length = 2 ∧
    (generate_commits_parallel [runB, runA]).countP (fun y => y.1 == "error") = 1 ∧
    (generate_commits_parallel [runB, runA]).countP (fun y => y.1 == "success") = 1 ∧
    dispatchOne runA ∈ generate_commits_parallel [runB, runA] := by
  have h := claim_C1_dispatch_completeness [runA, runB] [runB, runA]
    (List.Perm.swap runA runB [])
  exact ⟨h.1, h.2.2.1, h.2.2.2.1, h.2.2.2.2 runA (by simp)⟩

/-- C4 counterexample: the error raised on `"```This is not json```"` embeds
the fence-stripped text `"This is not json"`, not the raw input — the
`f`-string at `base.py:46` interpolates the sanitized `text`, so the
malformed-response error does not carry the raw text whenever sanitization is
non-trivial. -/
theorem claim_C4_cex :
    parse_message cfgGen1 "```This is not json```" =
      .error (.malformedResponse "This is not json") ∧
    parse_message cfgGen1 "```This is not json```" ≠
      .error (.malformedResponse "```This is not json```") := by
  refine ⟨rfl, fun h => ?_⟩
  rw [show parse_message cfgGen1 "```This is not json```" =
    .error (.malformedResponse "This is not json") from rfl] at h
  simp at h

/-- C4 (amended): for every raw text whose sanitized form is not valid JSON,
the normalizer fails with the malformed-response error carrying the offending
fence-stripped (sanitized) text; in particular the raw text
`"```This is not json```"` fails with the error carrying
`"This is not json"`. -/
theorem claim_C4_malformed (cfg : Config) (raw : String)
    (h : json_loads (sanitize_response raw) = none) :
    parse_message cfg raw = .error (.malformedResponse (sanitize_response raw)) := by
  rw [parse_message_def, h]

/-- Witness for C4: the concrete scenario from the spec. -/
theorem claim_C4_witness :
    json_loads (sanitize_response "```This is not json```") = none ∧
    parse_message cfgGen1 "```This is not json```" =
      .error (.malformedResponse "This is not json") :=
  ⟨rfl, claim_C4_malformed cfgGen1 "```This is not json```" rfl⟩

/-- C7: with a positive candidate cap, a successful provider invocation never
carries an empty candidate list — every zero-candidate path (no choices,
missing or empty content, unparseable content, all elements skipped) fails
instead. -/
theorem claim_C7_success_nonempty (cfg : Config) (resp : ChatResponse)
    (r : List AIResponse) (hcap : 0 < capOf cfg)
    (h : generate_commit_messages cfg resp = .ok r) : r ≠ [] := by
  obtain ⟨choices⟩ := resp
  cases choices with
  | nil => simp [generate_commit_messages] at h
  | cons c rest =>
    obtain ⟨content⟩ := c
    cases content with
    | none => simp [generate_commit_messages] at h
    | some s =>
      by_cases hs : s = ""
      · simp [generate_commit_messages, hs] at h
      · simp only [generate_commit_messages, if_neg hs] at h
        exact parse_message_ok_ne_nil hcap h

/-- Witness for C7: a concrete one-choice response produces a nonempty
candidate list. -/
theorem claim_C7_witness :
    0 < capOf cfgGen1 ∧
    ([{ title := "fix: y", value := "fix: y" }] : List AIResponse) ≠ [] :=
  ⟨by decide, claim_C7_success_nonempty cfgGen1 respW _ (by decide) rfl⟩

/-- C8: with configured sampling values, a non-reasoning model's request
carries the configuration's temperature, top-p and token budget under the
standard parameter names, while a model matching the fixed reasoning prefixes
(`o1`, `o3`, `gpt-5`) gets a fixed temperature of 1, no top-p, and the token
budget under `max_completion_tokens` instead of `max_tokens`. -/
theorem claim_C8_request_params (cfg : Config) (name : String) (t p : Rat)
    (m : Nat) (ht : cfg.temperature = some t) (hp : cfg.topP = some p)
    (hm : cfg.maxTokens = some m) :
    (is_reasoning_model name = false →
      buildKwargs cfg name =
        { model := name, n := 1, temperature := t, top_p := some p,
          max_tokens := some m, max_completion_tokens := none }) ∧
    (is_reasoning_model name = true →
      buildKwargs cfg name =
        { model := name, n := 1, temperature := 1, top_p := none,
          max_tokens := none, max_completion_tokens := some m }) := by
  constructor <;> intro hr <;> simp [buildKwargs, hr, ht, hp, hm]

/-- Witness for C8: `gpt-4o-mini` keeps the configured sampling parameters;
`o1-mini` gets the reasoning-mode replacements. -/
theorem claim_C8_witness :
    buildKwargs cfgFull "gpt-4o-mini" =
      { model := "gpt-4o-mini", n := 1, temperature := 1 / 2,
          top_p := some (9 / 10), max_tokens := some 512,
          max_completion_tokens := none } ∧
    buildKwargs cfgFull "o1-mini" =
      { model := "o1-mini", n := 1, temperature := 1, top_p := none,
          max_tokens := none, max_completion_tokens := some 512 } :=
  ⟨(claim_C8_request_params cfgFull "gpt-4o-mini" _ _ _ rfl rfl rfl).1 (by decide),
   (claim_C8_request_params cfgFull "o1-mini" _ _ _ rfl rfl rfl).2 (by decide)⟩

/-- C10: when the shared configuration has no `generate` entry the cap
defaults to 1, so an accepted normalization returns exactly the first
surviving candidate. -/
theorem claim_C10_default_cap (cfg : Config) (raw : String) (j : Json)
    (svs : List AIResponse) (hg : cfg.generate = none)
    (hj : json_loads (sanitize_response raw) = some j)
    (hs : processItems (asList j) = .ok svs) (hne : svs ≠ []) :
    parse_message cfg raw = .ok (svs.take 1) ∧ (svs.take 1).length = 1 ∧
      svs.take 1 = svs.head?.toList := by
  have hcap : capOf cfg = 1 := by simp [capOf, hg]
  refine ⟨?_, ?_, ?_⟩
  · rw [parse_message_def, hj]
    simp only [normalizeJson, hs]
    rw [if_neg (by simpa using hne), hcap]
  · cases svs with
    | nil => exact absurd rfl hne
    | cons a t => simp
  · cases svs with
    | nil => exact absurd rfl hne
    | cons a t => simp

/-- C2 counterexample: a well-formed JSON array whose first element carries a
null `subject` makes the normalizer raise an `AttributeError` (modelled as
`typeError "subject"`) instead of returning the surviving candidate from the
second element, refuting the claim for arbitrary well-formed arrays. -/
theorem claim_C2_cex :
    json_loads (sanitize_response "[\x7b\"subject\": null\x7d, \x7b\"subject\": \"a\"\x7d]") =
      some (Json.arr [Json.obj [("subject", Json.null)],
        Json.obj [("subject", Json.str "a")]]) ∧
    parse_message cfgGen1 "[\x7b\"subject\": null\x7d, \x7b\"subject\": \"a\"\x7d]" =
      .error (.typeError "subject") :=
  ⟨rfl, rfl⟩

/-- C2 (amended): for raw text parsing to a JSON array whose element
processing succeeds (all present subject/body/footer values are strings) with
at least one survivor, and a positive cap, the normalizer returns the
surviving candidates in array order truncated to at most `cap` (never
padded), so the result length never exceeds `cap`. -/
theorem claim_C2_order_truncation (cfg : Config) (raw : String) (cap : Nat)
    (items : List Json) (svs : List AIResponse) (hcap : cfg.generate = some cap)
    (_hpos : 0 < cap)
    (hj : json_loads (sanitize_response raw) = some (Json.arr items))
    (hs : processItems items = .ok svs) (hne : svs ≠ []) :
    parse_message cfg raw = .ok (svs.take cap) ∧ (svs.take cap).length ≤ cap := by
  have hc : capOf cfg = cap := by simp [capOf, hcap]
  constructor
  · rw [parse_message_def, hj]
    simp only [normalizeJson, asList, hs]
    rw [if_neg (by simpa using hne), hc]
  · simp only [List.length_take]
    omega

/-- Witness for the amended C2: two valid candidates with cap 1 yield the
first only, of length 1 ≤ 1. -/
theorem claim_C2_witness :
    parse_message cfgGen1 "[\x7b\"subject\": \"a\"\x7d,\x7b\"subject\": \"b\"\x7d]" =
      .ok [{ title := "a", value := "a" }] ∧
    ([{ title := "a", value := "a" }] : List AIResponse).length ≤ 1 := by
  have h := claim_C2_order_truncation cfgGen1 "[\x7b\"subject\": \"a\"\x7d,\x7b\"subject\": \"b\"\x7d]"
    1 [Json.obj [("subject", Json.str "a")], Json.obj [("subject", Json.str "b")]]
    [{ title := "a", value := "a" }, { title := "b", value := "b" }]
    rfl (by decide) rfl rfl (by decide)
  exact ⟨h.1, h.2⟩

/-- C3 counterexample: an element whose `subject` is missing but whose `body`
is the number 0 is, by the claim, excluded (leading to `NoValidCandidates`
when it is the only element); the code instead raises an `AttributeError`
(modelled as `typeError "body"`). -/
theorem claim_C3_cex :
    parse_message cfgGen1 "[\x7b\"body\": 0\x7d]" = .error (.typeError "body") ∧
    SvcError.typeError "body" ≠ SvcError.noValidCandidates :=
  ⟨rfl, by decide⟩

/-- C3 (amended): an element that is a non-object, or an object with only
string-typed subject/body/footer values whose `subject` is missing or blank
after trimming, is excluded from the result; and whenever every element is
excluded the normalizer fails with `NoValidCandidates` rather than returning
an empty list. -/
theorem claim_C3_exclusion :
    (∀ j : Json, fieldsWellTyped j = true → excludedElem j = true →
      processItem j = .ok none) ∧
    (∀ (cfg : Config) (raw : String) (j : Json),
      json_loads (sanitize_response raw) = some j →
      processItems (asList j) = .ok [] →
      parse_message cfg raw = .error .noValidCandidates) := by
  constructor
  · intro j hwt hex
    cases j
    case obj fields =>
      simp only [fieldsWellTyped, Bool.and_eq_true] at hwt
      obtain ⟨⟨-, h2⟩, h3⟩ := hwt
      obtain ⟨b, hb⟩ := getField_ok_of_okKey h2
      obtain ⟨f, hf⟩ := getField_ok_of_okKey h3
      rcases hg : jsonGet fields "subject" with - | v
      · have hs : getField fields "subject" = .ok "" := by
          simp only [getField, hg]
        simp [processItem, hs, hb, hf]
      · cases v <;> simp only [excludedElem, hg] at hex <;> try cases hex
        next s =>
          have hss : pyStrip s = "" := by simpa using hex
          have hs : getField fields "subject" = .ok "" := by
            simp only [getField, hg, hss]
          simp [processItem, hs, hb, hf]
    all_goals rfl
  · intro cfg raw j hj hp
    rw [parse_message_def, hj]
    simp only [normalizeJson, hp]
    rfl

/-- Witness for the amended C3: a blank-subject element is skipped, and an
array of one empty object fails with `NoValidCandidates`. -/
theorem claim_C3_witness :
    processItem (Json.obj [("subject", Json.str " ")]) = .ok none ∧
    parse_message cfgGen1 "[\x7b\x7d]" = .error .noValidCandidates :=
  ⟨claim_C3_exclusion.1 (Json.obj [("subject", Json.str " ")]) rfl rfl,
   claim_C3_exclusion.2 cfgGen1 "[\x7b\x7d]" (Json.arr [Json.obj []]) rfl rfl⟩

/-- The outcome shape the C5 claim asserts for the normalizer: either a
nonempty candidate list or exactly one of the malformed-response /
no-valid-candidates errors. -/
def normalContract (r : Except SvcError (List AIResponse)) : Bool :=
  match r with
  | .ok l => !l.isEmpty
  | .error (.malformedResponse _) => true
  | .error .noValidCandidates => true
  | .error _ => false

/-- C5 counterexample: on `{"subject": null}` the normalizer neither returns
a nonempty list nor fails with `MalformedResponse`/`NoValidCandidates`: the
`.strip()` call on the null subject raises an `AttributeError` that escapes
`parse_message`. -/
theorem claim_C5_cex :
    parse_message cfgGen1 "\x7b\"subject\": null\x7d" = .error (.typeError "subject") ∧
    normalContract (parse_message cfgGen1 "\x7b\"subject\": null\x7d") = false :=
  ⟨rfl, rfl⟩

/-- C5 (amended): with a positive cap, for every input whose parsed elements
carry only string values (when present) at subject/body/footer, the
normalizer returns a nonempty list or fails with exactly one of
`MalformedResponse` or `NoValidCandidates`. -/
theorem claim_C5_contract (cfg : Config) (raw : String) (hcap : 0 < capOf cfg)
    (hwt : ∀ j, json_loads (sanitize_response raw) = some j →
      ∀ e ∈ asList j, fieldsWellTyped e = true) :
    normalContract (parse_message cfg raw) = true := by
  rw [parse_message_def]
  rcases hj : json_loads (sanitize_response raw) with - | j
  · rfl
  · show normalContract (normalizeJson j (capOf cfg)) = true
    obtain ⟨svs, hs⟩ := processItems_wellTyped (hwt j hj)
    simp only [normalizeJson, hs]
    by_cases he : svs.isEmpty
    · rw [if_pos he]
      rfl
    · rw [if_neg he]
      have hne : svs ≠ [] := by simpa using he
      have ht := take_ne_nil_of_pos hne hcap (n := capOf cfg)
      simp only [normalContract, Bool.not_eq_true']
      simpa using ht

/-- Witness for the amended C5: a valid one-element array satisfies the
contract. -/
theorem claim_C5_witness :
    normalContract (parse_message cfgGen1 "[\x7b\"subject\": \"ok\"\x7d]") = true := by
  apply claim_C5_contract cfgGen1 _ (by decide)
  intro j hj e he
  rw [show json_loads (sanitize_response "[\x7b\"subject\": \"ok\"\x7d]") =
    some (Json.arr [Json.obj [("subject", Json.str "ok")]]) from rfl] at hj
  cases hj
  simp only [asList] at he
  simp at he
  subst he
  rfl

/-- C6 counterexample: a fence with the language tag `yaml` is not stripped
(only the literal `json` tag is), so normalizing the fenced payload fails
with `MalformedResponse` while the bare payload succeeds. -/
theorem claim_C6_cex :
    parse_message cfgGen1 "```yaml\n[\x7b\"subject\": \"a\"\x7d]\n```" =
      .error (.malformedResponse "yaml\n[\x7b\"subject\": \"a\"\x7d]") ∧
    parse_message cfgGen1 "[\x7b\"subject\": \"a\"\x7d]" =
      .ok [{ title := "a", value := "a" }] ∧
    parse_message cfgGen1 "```yaml\n[\x7b\"subject\": \"a\"\x7d]\n```" ≠
      parse_message cfgGen1 "[\x7b\"subject\": \"a\"\x7d]" :=
  ⟨rfl, rfl, fun h => Except.noConfusion h⟩

/-- C6 (amended): for every trimmed nonempty payload that does not begin with
a backtick or `j` and does not end with a backtick (true of every
syntactically valid JSON value), every fence whose language tag is `json` or
absent, and arbitrary whitespace around fences and payload, normalizing the
fenced text equals normalizing the bare payload. -/
theorem claim_C6_fence_transparent (cfg : Config) (tag ws1 ws2 ws3 ws4 P : String)
    (htag : tag = "json" ∨ tag = "")
    (h1 : ∀ c ∈ ws1.data, pyWs c = true) (h2 : ∀ c ∈ ws2.data, pyWs c = true)
    (h3 : ∀ c ∈ ws3.data, pyWs c = true) (h4 : ∀ c ∈ ws4.data, pyWs c = true)
    (hP : pyStrip P = P) (hne : P ≠ "")
    (hh : ∀ c, P.data.head? = some c → c ≠ '`' ∧ c ≠ 'j')
    (hl : ∀ c, P.data.getLast? = some c → c ≠ '`') :
    parse_message cfg (ws1 ++ "```" ++ tag ++ ws2 ++ P ++ ws3 ++ "```" ++ ws4) =
      parse_message cfg P := by
  have hPd : pyStripL P.data = P.data := congrArg String.data hP
  have hned : P.data ≠ [] := fun hx => hne (String.ext hx)
  have htagd : tag.data = "json".data ∨ tag.data = [] := by
    rcases htag with rfl | rfl
    · exact Or.inl rfl
    · exact Or.inr rfl
  have hfence := sanitizeL_fenced tag.data ws1.data ws2.data ws3.data ws4.data
    P.data htagd h1 h2 h3 h4 hPd hned hh
  have hsan1 : sanitize_response (ws1 ++ "```" ++ tag ++ ws2 ++ P ++ ws3 ++ "```" ++ ws4) = P := by
    unfold sanitize_response
    rw [show (ws1 ++ "```" ++ tag ++ ws2 ++ P ++ ws3 ++ "```" ++ ws4).data =
      ws1.data ++ ("```".data ++ tag.data ++ ws2.data ++ P.data ++ ws3.data ++
        "```".data) ++ ws4.data by simp [String.data_append, List.append_assoc]]
    rw [hfence]
  have hsan2 : sanitize_response P = P := by
    unfold sanitize_response
    rw [sanitizeL_plain P.data hPd hned hh hl]
  rw [parse_message_def, parse_message_def, hsan1, hsan2]

/-- Witness for the amended C6: a `json`-tagged fenced payload with newlines
and padding normalizes exactly like the bare payload. -/
theorem claim_C6_witness :
    parse_message cfgGen1
      ("  " ++ "```" ++ "json" ++ "\n" ++ "[\x7b\"subject\": \"a\"\x7d]" ++ "\n" ++ "```" ++ " ") =
      parse_message cfgGen1 "[\x7b\"subject\": \"a\"\x7d]" := by
  refine claim_C6_fence_transparent cfgGen1 "json" "  " "\n" "\n" " "
    "[\x7b\"subject\": \"a\"\x7d]" (Or.inl rfl) (by decide) (by decide) (by decide)
    (by decide) (by decide) (by decide) ?_ ?_
  · intro c hc
    cases hc
    exact ⟨by decide, by decide⟩
  · intro c hc
    cases hc
    decide

/-- C9: re-wrapping an accepted candidate list into the same JSON shape (an
array of objects carrying each candidate's subject, with its body where
present) and normalizing again with the same positive cap yields the same
candidate list. -/
theorem claim_C9_idempotent (cfg : Config) (raw : String) (cs : List AIResponse)
    (hcap : 0 < capOf cfg) (h : parse_message cfg raw = .ok cs) :
    normalizeJson (rewrap cs) (capOf cfg) = .ok cs := by
  rw [parse_message_def] at h
  rcases hj : json_loads (sanitize_response raw) with - | j <;> rw [hj] at h
  · cases h
  obtain ⟨svs, hp, hne, rfl⟩ := normalizeJson_ok h
  have hshapes := processItems_shapes hp
  have hcs : ∀ c ∈ svs.take (capOf cfg), CandShape c := fun c hc =>
    hshapes c (List.mem_of_mem_take hc)
  have hproc : processItems ((svs.take (capOf cfg)).map rewrapElem) =
      .ok (svs.take (capOf cfg)) := processItems_rewrap hcs
  have htne : svs.take (capOf cfg) ≠ [] := take_ne_nil_of_pos hne hcap
  simp only [normalizeJson, rewrap, asList, hproc]
  rw [if_neg (by simpa using htne)]
  rw [List.take_of_length_le (by simp [List.length_take])]

/-- Witness for C9: one accepted candidate with body and footer survives
re-normalization unchanged. -/
theorem claim_C9_witness :
    normalizeJson (rewrap [{ title := "feat: x", value := "feat: x\n\nb\n\nf" }])
      (capOf cfgGen2) = .ok [{ title := "feat: x", value := "feat: x\n\nb\n\nf" }] :=
  claim_C9_idempotent cfgGen2
    "[\x7b\"subject\": \"feat: x\", \"body\": \"b\", \"footer\": \"f\"\x7d]" _
    (by decide) rfl

/-- Witness for C10: two valid candidates with no `generate` entry yield only
the first. -/
theorem claim_C10_witness :
    parse_message cfgNone "[\x7b\"subject\": \"a\"\x7d,\x7b\"subject\": \"b\"\x7d]" =
      .ok [{ title := "a", value := "a" }] ∧
    ([{ title := "a", value := "a" }] : List AIResponse).length = 1 := by
  have h := claim_C10_default_cap cfgNone "[\x7b\"subject\": \"a\"\x7d,\x7b\"subject\": \"b\"\x7d]"
    (Json.arr [Json.obj [("subject", Json.str "a")], Json.obj [("subject", Json.str "b")]])
    [{ title := "a", value := "a" }, { title := "b", value := "b" }]
    rfl rfl rfl (by decide)
  exact ⟨h.1, h.2.1⟩

end PycommitAI
